import Mathlib

/-!
Verification of the client-side data-management core of the AutoData_AI
repository (src/utils.ts, src/App.tsx, src/types.ts).

Strings are embedded as `List Char`; JavaScript string operations
(`split`, `trim`, `toLowerCase`, `localeCompare`, `parseInt`, template
interpolation) are translated to executable Lean functions below.  The
approximations made (documented on each definition) are: `trim`,
`toLowerCase` and `localeCompare` follow ASCII rather than full-Unicode /
locale rules, and `JSON` persistence round-trips records exactly.  No
theorem in this file depends on the particular collation order used by
`localeCompare`.
-/

namespace AutoData

/-- JavaScript strings, embedded as lists of characters. -/
abbrev Str := List Char

/-- `String.prototype.toLowerCase`, ASCII approximation (`Char.toLower`). -/
def lowerStr (s : Str) : Str := s.map Char.toLower

/-- `String.prototype.trim`: drop whitespace from both ends. -/
def trimChars (s : Str) : Str :=
  ((s.dropWhile Char.isWhitespace).reverse.dropWhile Char.isWhitespace).reverse

/-- `String.prototype.split(sep)` for a one-character separator: splits at
every occurrence of `sep`; the result is always non-empty and never
contains the separator. -/
def splitOnChar (sep : Char) : Str → List Str
  | [] => [[]]
  | c :: cs =>
    if c = sep then [] :: splitOnChar sep cs
    else
      match splitOnChar sep cs with
      | [] => [[c]]
      | h :: t => (c :: h) :: t

/-- Decimal digit character for `d < 10`. -/
def digitChar (d : Nat) : Char := Char.ofNat (48 + d)

/-- Decimal printing with a fuel argument (structural recursion, so that
concrete keys and CSV lines evaluate inside the kernel); the fuel is
exhausted only beyond `n` recursive steps, which never happens when it
starts at `n + 1`. -/
def natToCharsAux : Nat → Nat → List Char
  | 0, _ => []
  | fuel + 1, n =>
    if n < 10 then [digitChar n]
    else natToCharsAux fuel (n / 10) ++ [digitChar (n % 10)]

/-- Decimal representation of a natural number (`String(n)` in JS). -/
def natToChars (n : Nat) : List Char := natToCharsAux (n + 1) n

/-- `String(n)` for a JavaScript integer (decimal, `-` sign for negatives). -/
def intToString (n : Int) : Str :=
  if n < 0 then '-' :: natToChars n.natAbs else natToChars n.toNat

/-- Numeric value of a run of decimal digit characters. -/
def digitsVal (l : List Char) : Nat :=
  l.foldl (fun a c => 10 * a + (c.toNat - 48)) 0

/-- The maximal leading run of decimal digits, `none` when there is no
leading digit. -/
def leadingDigits (l : Str) : Option Nat :=
  let ds := l.takeWhile Char.isDigit
  if ds.isEmpty then none else some (digitsVal ds)

/-- Sign handling of `parseInt` on the whitespace-trimmed input. -/
def parseIntSigned : Str → Option Int
  | [] => none
  | c :: rest =>
    if c = '-' then
      match leadingDigits rest with
      | none => none
      | some v => some (-(v : Int))
    else if c = '+' then
      match leadingDigits rest with
      | none => none
      | some v => some ((v : Int))
    else
      match leadingDigits (c :: rest) with
      | none => none
      | some v => some ((v : Int))

/-- `parseInt(s, 10)`: skip leading whitespace, optional sign, then read a
maximal leading run of decimal digits; `none` models `NaN` (no leading
digit). Trailing garbage after the digits is ignored, as in JS. -/
def parseIntJS (s : Str) : Option Int :=
  parseIntSigned (s.dropWhile Char.isWhitespace)

/-- `String.prototype.localeCompare`.  The host collation is
locale-dependent; it is modelled by codepoint order, which is a legitimate
consistent comparator.  No theorem below depends on this choice: the
sorting facts proved are permutation/length facts only. -/
def localeCompareM : Str → Str → Int
  | [], [] => 0
  | [], _ :: _ => -1
  | _ :: _, [] => 1
  | a :: as, b :: bs =>
    if a.toNat < b.toNat then -1
    else if b.toNat < a.toNat then 1
    else localeCompareM as bs

/-- `VehicleRecord` from src/types.ts: Manufacturer, Model, Generation,
Model_Code are text, Start_Year an integer, End_Year text
("YYYY" or "Present"). -/
structure VehicleRecord where
  Manufacturer : Str
  Model : Str
  Generation : Str
  Model_Code : Str
  Start_Year : Int
  End_Year : Str
deriving DecidableEq, Repr

/-- A JavaScript value read out of a split row: either a string cell or
`undefined` (index past the end of the row's cells). -/
inductive JsVal where
  | undefined
  | str (s : Str)
deriving DecidableEq, Repr

/-- `String(v)` coercion as applied by `parseInt` and by template
interpolation: `undefined` prints as "undefined". -/
def jsValToStr : JsVal → Str
  | .undefined => "undefined".data
  | .str s => s

/-- The record built by one `parseCSV` row.  `Generation` is always a
string (an `undefined` cell there raises a TypeError first) and
`Start_Year` is always a parsed integer; the other four fields keep the
raw `JsVal` that `record[header] = val` stored (which is `undefined` when
the row is shorter than the header position). -/
structure RowRec where
  Manufacturer : JsVal
  Model : JsVal
  Generation : Str
  Model_Code : JsVal
  Start_Year : Int
  End_Year : JsVal
deriving DecidableEq, Repr

/-- Errors raised out of `parseCSV` (src/utils.ts).  The two `throw new
Error(...)` sites are the header-format error (line 44) and the per-row
year error (line 57, carrying the 1-based non-blank line number and the
offending text); `typeError` models the implicit JavaScript TypeError
raised when `cleanGeneration` receives `undefined` (line 61, a row shorter
than the position of the Generation column). -/
inductive ParseErr where
  | formatError
  | rowParseError (line : Nat) (text : Str)
  | typeError
deriving DecidableEq, Repr

deriving instance DecidableEq for Except

/-! ## src/utils.ts -/

/-- Comparator of `sortDatabase` (src/utils.ts lines 5-16): Manufacturer
via `localeCompare`, then Model via `localeCompare`, then numeric
`Start_Year` difference. -/
def recordCompare (a b : VehicleRecord) : Int :=
  let m := localeCompareM a.Manufacturer b.Manufacturer
  if m ≠ 0 then m
  else
    let mo := localeCompareM a.Model b.Model
    if mo ≠ 0 then mo
    else a.Start_Year - b.Start_Year

/-- Stable insertion of `x` before the first element it compares `≤` to. -/
def insertLe (le : VehicleRecord → VehicleRecord → Bool) (x : VehicleRecord) :
    List VehicleRecord → List VehicleRecord
  | [] => [x]
  | y :: ys => if le x y then x :: y :: ys else y :: insertLe le x ys

/-- Stable sort by a boolean comparator (insertion sort). -/
def sortByLe (le : VehicleRecord → VehicleRecord → Bool) :
    List VehicleRecord → List VehicleRecord
  | [] => []
  | a :: l => insertLe le a (sortByLe le l)

/-- `sortDatabase` (src/utils.ts lines 4-17): `[...data].sort(cmp)` — a
stable sort of a copy of the input by `recordCompare`.  `Array.sort` is
required to be stable; for the consistent comparator `recordCompare` every
stable sorting algorithm returns the same list, so insertion sort is an
observationally faithful executable model. -/
def sortDatabase (data : List VehicleRecord) : List VehicleRecord :=
  sortByLe (fun a b => recordCompare a b ≤ 0) data

/-- The six expected header names, in fixed order (src/utils.ts lines 20
and 40). -/
def expectedHeaders : List Str :=
  ["Manufacturer".data, "Model".data, "Generation".data,
   "Model_Code".data, "Start_Year".data, "End_Year".data]

/-- `record[header]` lookup used by `convertToCSV` (src/utils.ts line 22);
`Start_Year` is stringified by `join`.  The final `[]` branch (an unknown
header name) is never reached: `convertToCSV` only looks up the six
expected names. -/
def recordField (r : VehicleRecord) (h : Str) : Str :=
  if h = "Manufacturer".data then r.Manufacturer
  else if h = "Model".data then r.Model
  else if h = "Generation".data then r.Generation
  else if h = "Model_Code".data then r.Model_Code
  else if h = "Start_Year".data then intToString r.Start_Year
  else if h = "End_Year".data then r.End_Year
  else []

/-- `convertToCSV` (src/utils.ts lines 19-25): a header row followed by
one comma-joined row per record, all newline-joined, no escaping. -/
def convertToCSV (data : List VehicleRecord) : Str :=
  List.intercalate ['\n']
    (List.intercalate [','] expectedHeaders ::
      data.map (fun r => List.intercalate [','] (expectedHeaders.map (recordField r))))

/-- First match of the regex `\d+` in `val`: the leftmost maximal run of
decimal digits, if any digit occurs. -/
def firstDigitRun : Str → Option Str
  | [] => none
  | c :: cs =>
    if c.isDigit then some (c :: cs.takeWhile Char.isDigit)
    else firstDigitRun cs

/-- `cleanGeneration` (src/utils.ts lines 30-33): `val.match(/\d+/)`,
returning the matched run, or the input unchanged when there is none. -/
def cleanGeneration (val : Str) : Str :=
  match firstDigitRun val with
  | some m => m
  | none => val

/-- The non-blank lines of the input (src/utils.ts line 36):
`content.split('\n').filter(line => line.trim() !== '')`. -/
def csvLines (content : Str) : List Str :=
  (splitOnChar '\n' content).filter (fun l => !(trimChars l).isEmpty)

/-- The trimmed header cells of the first non-blank line
(src/utils.ts line 39). -/
def csvHeaders (content : Str) : List Str :=
  match csvLines content with
  | [] => []
  | l0 :: _ => (splitOnChar ',' l0).map trimChars

/-- Header validation (src/utils.ts line 42): every expected name occurs
among the header cells (set containment; order and extras are ignored). -/
def validHeader (headers : List Str) : Bool :=
  expectedHeaders.all (fun h => headers.contains h)

/-- `values[index]` on a split row: a string for an in-range index,
`undefined` past the end. -/
def cellAt (values : List Str) (i : Nat) : JsVal :=
  match values[i]? with
  | some v => .str v
  | none => .undefined

/-- Mutable row object being filled by `headers.forEach` — each of the six
known fields is `none` until its header has been processed. -/
structure RowState where
  man : Option JsVal := none
  mod : Option JsVal := none
  gen : Option Str := none
  mc : Option JsVal := none
  sy : Option Int := none
  ey : Option JsVal := none

/-- One `headers.forEach` step of `parseCSV` (src/utils.ts lines 53-64)
for the header at position `idx`: a `Start_Year` header parses its cell
(throwing the row error with the 1-based line number `n + 1` and the
interpolated cell text on `NaN`); a `Generation` header runs
`cleanGeneration` (a TypeError on an `undefined` cell); the other four
known names store the raw cell; any extra header stores into a property
that is never read and is dropped here. -/
def processCell (values : List Str) (n : Nat) (st : RowState) (h : Str)
    (idx : Nat) : Except ParseErr RowState :=
  if h = "Start_Year".data then
    match parseIntJS (jsValToStr (cellAt values idx)) with
    | none => .error (.rowParseError (n + 1) (jsValToStr (cellAt values idx)))
    | some y => .ok { st with sy := some y }
  else if h = "Generation".data then
    match cellAt values idx with
    | .undefined => .error .typeError
    | .str s => .ok { st with gen := some (cleanGeneration s) }
  else if h = "Manufacturer".data then .ok { st with man := some (cellAt values idx) }
  else if h = "Model".data then .ok { st with mod := some (cellAt values idx) }
  else if h = "Model_Code".data then .ok { st with mc := some (cellAt values idx) }
  else if h = "End_Year".data then .ok { st with ey := some (cellAt values idx) }
  else .ok st

/-- `headers.forEach` over the remaining headers, starting at position
`idx`. -/
def processCells (values : List Str) (n : Nat) :
    List Str → Nat → RowState → Except ParseErr RowState
  | [], _, st => .ok st
  | h :: hs, idx, st =>
    match processCell values n st h idx with
    | .error e => .error e
    | .ok st' => processCells values n hs (idx + 1) st'

/-- Read the finished row object.  After a valid header every one of the
six fields has been assigned, so the defaults supplied here are dead. -/
def finishRow (st : RowState) : RowRec :=
  { Manufacturer := st.man.getD .undefined
    Model := st.mod.getD .undefined
    Generation := st.gen.getD []
    Model_Code := st.mc.getD .undefined
    Start_Year := st.sy.getD 0
    End_Year := st.ey.getD .undefined }

/-- Process one kept data row at non-blank-line index `n` (0-based; the
source reports `n + 1`). -/
def processRow (headers : List Str) (values : List Str) (n : Nat) :
    Except ParseErr RowRec :=
  match processCells values n headers 0 {} with
  | .error e => .error e
  | .ok st => .ok (finishRow st)

/-- The trimmed cells of one data row (src/utils.ts line 49):
`lines[i].split(',').map(v => v.trim())`. -/
def rowVals (row : Str) : List Str := (splitOnChar ',' row).map trimChars

/-- The `for` loop of `parseCSV` (src/utils.ts lines 48-66) over the data
rows; `n` is the 0-based index in the non-blank lines of the first row of
`rows`.  A row with fewer than six cells is skipped; the first row error
aborts the whole parse. -/
def processRows (headers : List Str) : List Str → Nat → Except ParseErr (List RowRec)
  | [], _ => .ok []
  | row :: rest, n =>
    if (rowVals row).length < expectedHeaders.length then processRows headers rest (n + 1)
    else
      match processRow headers (rowVals row) n with
      | .error e => .error e
      | .ok r =>
        match processRows headers rest (n + 1) with
        | .error e => .error e
        | .ok rs => .ok (r :: rs)

/-- The body of `parseCSV` over the already-filtered non-blank lines.
Fewer than two lines returns an empty list (no error); an incomplete
header throws the format error; then each kept data row is parsed. -/
def parseCSVLines : List Str → Except ParseErr (List RowRec)
  | [] => .ok []
  | [_] => .ok []
  | l0 :: rest =>
    if validHeader ((splitOnChar ',' l0).map trimChars) then
      processRows ((splitOnChar ',' l0).map trimChars) rest 1
    else .error .formatError

/-- `parseCSV` (src/utils.ts lines 35-68).  Fewer than two non-blank lines
returns an empty list (no error); an incomplete header throws the format
error; then each kept data row is parsed, `Start_Year` by `parseInt` and
`Generation` through `cleanGeneration`, any failure aborting the whole
parse. -/
def parseCSV (content : Str) : Except ParseErr (List RowRec) :=
  parseCSVLines (csvLines content)

/-- `isDuplicate` (src/utils.ts lines 82-90): `existing.some(...)` with
the four text fields compared lowercased and `Start_Year` compared
exactly; `End_Year` is not consulted. -/
def isDuplicate (existing : List VehicleRecord) (record : VehicleRecord) : Bool :=
  existing.any (fun item =>
    lowerStr item.Manufacturer == lowerStr record.Manufacturer &&
    lowerStr item.Model == lowerStr record.Model &&
    lowerStr item.Generation == lowerStr record.Generation &&
    lowerStr item.Model_Code == lowerStr record.Model_Code &&
    item.Start_Year == record.Start_Year)

/-! ## src/App.tsx -/

/-- One key part (src/App.tsx line 102): `String(p || '').trim()
.toLowerCase()` applied to a string part.  For a string `p`, `p || ''` is
the identity (the only falsy string is `''`, which `||` maps to `''`
again), so only the trim and lowercase steps remain. -/
def keyPart (s : Str) : Str := lowerStr (trimChars s)

/-- `String(p || '')` for the numeric `Start_Year` part of the key: the
only falsy integer is `0`, which becomes the empty string; every other
value is printed in decimal. -/
def syKeyStr (y : Int) : Str := if y = 0 then [] else intToString y

/-- `getRecordKey` (src/App.tsx lines 92-103): empty string for a
null/absent record, otherwise the six parts — Manufacturer, Model,
Generation, Model_Code, Start_Year, End_Year in that order — each
stringified, trimmed and lowercased, joined with `##`. -/
def getRecordKey : Option VehicleRecord → Str
  | none => []
  | some v =>
    List.intercalate ['#', '#']
      (([v.Manufacturer, v.Model, v.Generation, v.Model_Code,
         syKeyStr v.Start_Year, v.End_Year]).map keyPart)

/-- The accepted suggestions of `confirmAddition` (src/App.tsx lines
209-216): `suggestions.forEach` pushes every suggestion that is not a
duplicate of the *pre-batch* `database` onto `newRecords`. -/
def confirmNewRecords (db sugg : List VehicleRecord) : List VehicleRecord :=
  sugg.foldl (fun acc s => if isDuplicate db s then acc else acc ++ [s]) []

/-- `confirmAddition` (src/App.tsx lines 205-228), dataset part: append
the accepted suggestions and re-sort. -/
def confirmAdditionMerge (db sugg : List VehicleRecord) : List VehicleRecord :=
  sortDatabase (db ++ confirmNewRecords db sugg)

/-- The merge loop of `handleImportCSV` (src/App.tsx lines 272-279):
`mergedData` starts as a copy of the database and each imported record is
tested against the *current* `mergedData` — including records accepted
earlier in the same batch — and pushed when not a duplicate. -/
def importAccum (merged : List VehicleRecord) :
    List VehicleRecord → List VehicleRecord
  | [] => merged
  | c :: rest =>
    if isDuplicate merged c then importAccum merged rest
    else importAccum (merged ++ [c]) rest

/-- `handleImportCSV` merge (src/App.tsx lines 272-282): the progressive
merge followed by `sortDatabase`. -/
def importMerge (db cands : List VehicleRecord) : List VehicleRecord :=
  sortDatabase (importAccum db cands)

/-- A parsed row read back as a `VehicleRecord`.  An `undefined` text
field (possible only when the header has extra columns and a kept row is
shorter) is read as the empty string; no theorem below depends on that
region — in the source such a record would crash the first `toLowerCase`
or `localeCompare` applied to it. -/
def rowToRecord (r : RowRec) : VehicleRecord :=
  { Manufacturer := match r.Manufacturer with | .str s => s | .undefined => []
    Model := match r.Model with | .str s => s | .undefined => []
    Generation := r.Generation
    Model_Code := match r.Model_Code with | .str s => s | .undefined => []
    Start_Year := r.Start_Year
    End_Year := match r.End_Year with | .str s => s | .undefined => [] }

/-- `handleImportCSV` (src/App.tsx lines 260-291): parse, then merge; the
`try`/`catch` leaves the database untouched when `parseCSV` throws. -/
def importCSV (db : List VehicleRecord) (content : Str) : List VehicleRecord :=
  match parseCSV content with
  | .error _ => db
  | .ok rows => importMerge db (rows.map rowToRecord)

/-- `handleDeleteSelected` (src/App.tsx lines 330-345):
`prevDb.filter(record => !keysToDelete.has(getRecordKey(record)))`.  The
selection `Set<string>` is embedded as a list of keys with membership via
`contains`. -/
def deleteSelected (db : List VehicleRecord) (keys : List Str) : List VehicleRecord :=
  db.filter (fun r => !(keys.contains (getRecordKey (some r))))

/-- The auto-save effect (src/App.tsx lines 79-83): the dataset is
written to storage only when it is non-empty; otherwise storage keeps its
previous contents.  Storage is modelled as the stored record list
(`JSON` serialization assumed faithful). -/
def autoSaveEffect (storage : Option (List VehicleRecord))
    (db : List VehicleRecord) : Option (List VehicleRecord) :=
  if 0 < db.length then some db else storage

/-- `RECORDS_PER_PAGE` (src/App.tsx line 22). -/
def RECORDS_PER_PAGE : Nat := 50

/-- `totalPages` (src/App.tsx line 149):
`Math.max(1, Math.ceil(filteredData.length / RECORDS_PER_PAGE))`. -/
def totalPages (viewLen : Nat) : Nat :=
  max 1 ((viewLen + RECORDS_PER_PAGE - 1) / RECORDS_PER_PAGE)

/-- The page-bounds effect (src/App.tsx lines 156-160): when the current
page exceeds the (positive) page count, jump to the last page. -/
def clampPageEffect (currentPage total : Nat) : Nat :=
  if currentPage > total ∧ total > 0 then total else currentPage

/-! ## Registers, predicates and concrete inputs used by the theorems -/

/-- A `VehicleRecord` as it comes back out of `parseCSV`: every text cell
present as a string. -/
def embedRec (r : VehicleRecord) : RowRec :=
  { Manufacturer := .str r.Manufacturer
    Model := .str r.Model
    Generation := r.Generation
    Model_Code := .str r.Model_Code
    Start_Year := r.Start_Year
    End_Year := .str r.End_Year }

/-- A text field that survives the codec: free of the column separator,
free of the line separator, and stable under trimming. -/
def fieldOk (s : Str) : Prop := ',' ∉ s ∧ '\n' ∉ s ∧ trimChars s = s

instance (s : Str) : Decidable (fieldOk s) := by unfold fieldOk; infer_instance

/-- A record conforming to the data model as the round-trip needs it:
codec-safe text fields and an already-normalized Generation. -/
def recordOk (r : VehicleRecord) : Prop :=
  fieldOk r.Manufacturer ∧ fieldOk r.Model ∧ fieldOk r.Generation ∧
  fieldOk r.Model_Code ∧ fieldOk r.End_Year ∧
  cleanGeneration r.Generation = r.Generation

instance (r : VehicleRecord) : Decidable (recordOk r) := by
  unfold recordOk; infer_instance

/-- The BMW 3 Series record with End_Year "Present" (spec §8). -/
def bmwPresent : VehicleRecord :=
  ⟨"BMW".data, "3 Series".data, "7".data, "G20".data, 2018, "Present".data⟩

/-- The same BMW record with End_Year "2023" (spec §8). -/
def bmw2023 : VehicleRecord :=
  ⟨"BMW".data, "3 Series".data, "7".data, "G20".data, 2018, "2023".data⟩

/-- The `bmw2023` record with a leading space in the Manufacturer: still
sorted, deduplicated, comma-free and Generation-normalized, but not
trim-stable. -/
def bmwSpaced : VehicleRecord :=
  ⟨" BMW".data, "3 Series".data, "7".data, "G20".data, 2018, "2023".data⟩

/-- A simple well-formed record. -/
def toyotaRec : VehicleRecord :=
  ⟨"Toyota".data, "Corolla".data, "5".data, "E210".data, 2019, "Present".data⟩

/-- The same record with the Manufacturer cased differently: a distinct
record with the same (case-insensitive) identity key. -/
def toyotaRecUpper : VehicleRecord :=
  ⟨"TOYOTA".data, "Corolla".data, "5".data, "E210".data, 2019, "Present".data⟩

/-- A single non-blank line whose header also misses three of the
required columns. -/
def badHeaderOneLine : Str := "Manufacturer,Model,Start_Year".data

/-- Two non-blank lines with the incomplete header. -/
def badHeaderTwoLines : Str :=
  "Manufacturer,Model,Start_Year\nToyota,Corolla,2019".data

/-- Text with a valid six-column header and one data row whose
Start_Year cell is not an integer (spec §8's RowParseError example). -/
def goodHeaderBadYear : Str :=
  "Manufacturer,Model,Generation,Model_Code,Start_Year,End_Year\nToyota,Corolla,Mk5,E210,abc,Present".data

/-- The second data row of the C6 counterexample input. -/
def extraColsRow2 : Str := "Toyota,Corolla,E210,abc,Present,x,5".data

/-- A valid header with seven columns (Generation last), a kept first
data row with only six cells, and a second data row with a
non-integer Start_Year. -/
def extraColsContent : Str :=
  "Manufacturer,Model,Model_Code,Start_Year,End_Year,Extra,Generation\nToyota,Corolla,E210,2019,Present,x\nToyota,Corolla,E210,abc,Present,x,5".data

/-! ## Helper lemmas: characters and trimming -/

lemma not_ws_of_isDigit {c : Char} (h : c.isDigit = true) : c.isWhitespace = false := by
  simp only [Char.isDigit, Bool.and_eq_true, decide_eq_true_eq] at h
  simp only [Char.isWhitespace, Bool.or_eq_false_iff, decide_eq_false_iff_not]
  refine ⟨⟨⟨?_, ?_⟩, ?_⟩, ?_⟩ <;> intro he <;> subst he <;> simp_all

lemma ne_dash_of_isDigit {c : Char} (h : c.isDigit = true) : ¬ c = '-' := by
  intro he; subst he; simp [Char.isDigit] at h

lemma ne_plus_of_isDigit {c : Char} (h : c.isDigit = true) : ¬ c = '+' := by
  intro he; subst he; simp [Char.isDigit] at h

lemma dropWhile_eq_self_of_all {α : Type} {p : α → Bool} {l : List α}
    (h : ∀ c ∈ l, p c = false) : l.dropWhile p = l := by
  cases l with
  | nil => rfl
  | cons c cs => rw [List.dropWhile_cons, if_neg]; simp [h c (by simp)]

lemma trimChars_eq_self_of_no_ws {l : Str}
    (h : ∀ c ∈ l, c.isWhitespace = false) : trimChars l = l := by
  unfold trimChars
  rw [dropWhile_eq_self_of_all h, dropWhile_eq_self_of_all (fun c hc => h c (by simpa using hc)),
    List.reverse_reverse]

lemma all_of_dropWhile_all {α : Type} {p : α → Bool} {l : List α}
    (h : ∀ x ∈ l.dropWhile p, p x = true) : ∀ x ∈ l, p x = true := by
  intro x hx
  rw [← List.takeWhile_append_dropWhile p l, List.mem_append] at hx
  rcases hx with hx | hx
  · exact List.mem_takeWhile_imp hx
  · exact h x hx

lemma dropWhile_eq_nil_all {α : Type} {p : α → Bool} {l : List α}
    (h : l.dropWhile p = []) : ∀ x ∈ l, p x = true := by
  apply all_of_dropWhile_all
  rw [h]; intro x hx; cases hx

lemma all_ws_of_trimChars_nil {l : Str} (h : trimChars l = []) :
    ∀ c ∈ l, c.isWhitespace = true := by
  unfold trimChars at h
  rw [List.reverse_eq_nil_iff] at h
  have h2 : ∀ c ∈ (l.dropWhile Char.isWhitespace).reverse, c.isWhitespace = true :=
    dropWhile_eq_nil_all h
  have h3 : ∀ c ∈ l.dropWhile Char.isWhitespace, c.isWhitespace = true := by
    intro c hc; exact h2 c (List.mem_reverse.mpr hc)
  exact all_of_dropWhile_all h3

lemma trimChars_ne_nil {l : Str} {c : Char} (hc : c ∈ l)
    (hw : c.isWhitespace = false) : ¬(trimChars l).isEmpty = true := by
  intro h
  rw [List.isEmpty_iff] at h
  have := all_ws_of_trimChars_nil h c hc
  rw [hw] at this; cases this

lemma takeWhile_eq_self_of_all {α : Type} {p : α → Bool} {l : List α}
    (h : ∀ c ∈ l, p c = true) : l.takeWhile p = l := by
  induction l with
  | nil => rfl
  | cons c cs ih =>
    rw [List.takeWhile_cons, if_pos (h c (by simp))]
    rw [ih (fun x hx => h x (by simp [hx]))]

lemma takeWhile_append_first_false {α : Type} {p : α → Bool} {l m : List α}
    (hl : ∀ c ∈ l, p c = true) (hm : ∀ c ∈ m.take 1, p c = false) :
    (l ++ m).takeWhile p = l := by
  induction l with
  | nil =>
    cases m with
    | nil => rfl
    | cons c cs =>
      simp only [List.nil_append, List.takeWhile_cons]
      rw [if_neg]; simp [hm c (by simp)]
  | cons c cs ih =>
    simp only [List.cons_append, List.takeWhile_cons]
    rw [if_pos (hl c (by simp)), ih (fun x hx => hl x (by simp [hx]))]

/-! ## Helper lemmas: intercalate and split -/

lemma intercalate_nil {α : Type} (s : List α) :
    List.intercalate s ([] : List (List α)) = [] := rfl

lemma intercalate_single {α : Type} (s a : List α) :
    List.intercalate s [a] = a := by
  simp [List.intercalate, List.intersperse]

lemma intercalate_cons₂ {α : Type} (s a b : List α) (t : List (List α)) :
    List.intercalate s (a :: b :: t) = a ++ s ++ List.intercalate s (b :: t) := by
  simp [List.intercalate, List.intersperse, List.append_assoc]

lemma mem_intercalate_of_mem_part {α : Type} {c : α} {p : List α} {s : List α}
    {parts : List (List α)} (hc : c ∈ p) (hp : p ∈ parts) :
    c ∈ List.intercalate s parts := by
  induction parts with
  | nil => cases hp
  | cons a t ih =>
    cases t with
    | nil =>
      rw [List.mem_singleton] at hp
      subst hp; rwa [intercalate_single]
    | cons b t' =>
      rw [intercalate_cons₂]
      rcases List.mem_cons.mp hp with h | h
      · subst h; simp [hc]
      · simp only [List.mem_append]
        exact Or.inr (ih h)

lemma not_mem_intercalate {α : Type} {c : α} {s : List α} {parts : List (List α)}
    (hs : c ∉ s) (hp : ∀ p ∈ parts, c ∉ p) : c ∉ List.intercalate s parts := by
  induction parts with
  | nil => simp [intercalate_nil]
  | cons a t ih =>
    cases t with
    | nil => rw [intercalate_single]; exact hp a (by simp)
    | cons b t' =>
      rw [intercalate_cons₂]
      simp only [List.mem_append, not_or]
      exact ⟨⟨hp a (by simp), hs⟩, ih (fun p hmem => hp p (by simp [hmem]))⟩

lemma splitOnChar_of_not_mem {sep : Char} {p : Str} (h : sep ∉ p) :
    splitOnChar sep p = [p] := by
  induction p with
  | nil => rfl
  | cons c cs ih =>
    have hc : ¬ c = sep := fun he => h (he ▸ List.mem_cons_self c cs)
    have hcs : sep ∉ cs := fun hm => h (List.mem_cons_of_mem c hm)
    rw [splitOnChar, if_neg hc, ih hcs]

lemma splitOnChar_append_sep {sep : Char} {p rest : Str} (h : sep ∉ p) :
    splitOnChar sep (p ++ sep :: rest) = p :: splitOnChar sep rest := by
  induction p with
  | nil => simp [splitOnChar]
  | cons c cs ih =>
    have hc : ¬ c = sep := fun he => h (he ▸ List.mem_cons_self c cs)
    have hcs : sep ∉ cs := fun hm => h (List.mem_cons_of_mem c hm)
    rw [List.cons_append, splitOnChar, if_neg hc, ih hcs]

lemma splitOnChar_intercalate {sep : Char} {parts : List Str}
    (hne : parts ≠ []) (h : ∀ p ∈ parts, sep ∉ p) :
    splitOnChar sep (List.intercalate [sep] parts) = parts := by
  induction parts with
  | nil => cases hne rfl
  | cons a t ih =>
    cases t with
    | nil => rw [intercalate_single]; exact splitOnChar_of_not_mem (h a (by simp))
    | cons b t' =>
      rw [intercalate_cons₂, List.append_assoc, List.singleton_append,
        splitOnChar_append_sep (h a (by simp)),
        ih (by simp) (fun p hmem => h p (by simp [hmem]))]

/-! ## Helper lemmas: decimal printing and parsing -/

lemma toNat_digitChar {d : Nat} (h : d < 10) : (digitChar d).toNat = 48 + d := by
  interval_cases d <;> rfl

lemma isDigit_digitChar {d : Nat} (h : d < 10) : (digitChar d).isDigit = true := by
  interval_cases d <;> rfl

lemma natToCharsAux_ne_nil : ∀ fuel n, n < fuel → natToCharsAux fuel n ≠ [] := by
  intro fuel
  induction fuel with
  | zero => intro n h; omega
  | succ f _ =>
    intro n _
    rw [natToCharsAux]
    split
    · simp
    · simp

lemma natToChars_ne_nil (n : Nat) : natToChars n ≠ [] :=
  natToCharsAux_ne_nil (n + 1) n (by omega)

lemma natToCharsAux_all_digits :
    ∀ fuel n, n < fuel → ∀ c ∈ natToCharsAux fuel n, c.isDigit = true := by
  intro fuel
  induction fuel with
  | zero => intro n h; omega
  | succ f ih =>
    intro n hn c hc
    rw [natToCharsAux] at hc
    split at hc
    · rw [List.mem_singleton] at hc
      subst hc
      exact isDigit_digitChar (by omega)
    · rw [List.mem_append] at hc
      rcases hc with hc | hc
      · have hlt : n / 10 < f := by omega
        exact ih (n / 10) hlt c hc
      · rw [List.mem_singleton] at hc
        subst hc
        exact isDigit_digitChar (Nat.mod_lt _ (by omega))

lemma natToChars_all_digits (n : Nat) : ∀ c ∈ natToChars n, c.isDigit = true :=
  natToCharsAux_all_digits (n + 1) n (by omega)

lemma digitsVal_append_digit (a : List Char) (c : Char) :
    digitsVal (a ++ [c]) = 10 * digitsVal a + (c.toNat - 48) := by
  unfold digitsVal
  rw [List.foldl_append]
  rfl

lemma digitsVal_natToCharsAux :
    ∀ fuel n, n < fuel → digitsVal (natToCharsAux fuel n) = n := by
  intro fuel
  induction fuel with
  | zero => intro n h; omega
  | succ f ih =>
    intro n hn
    rw [natToCharsAux]
    split
    · rename_i h
      show digitsVal [digitChar n] = n
      unfold digitsVal
      simp [List.foldl, toNat_digitChar h]
    · rename_i h
      have hlt : n / 10 < f := by omega
      rw [digitsVal_append_digit, ih (n / 10) hlt,
        toNat_digitChar (Nat.mod_lt _ (by omega))]
      omega

lemma digitsVal_natToChars (n : Nat) : digitsVal (natToChars n) = n :=
  digitsVal_natToCharsAux (n + 1) n (by omega)

lemma intToString_chars {n : Int} : ∀ c ∈ intToString n, c = '-' ∨ c.isDigit = true := by
  unfold intToString
  split
  · intro c hc
    rcases List.mem_cons.mp hc with h | h
    · exact Or.inl h
    · exact Or.inr (natToChars_all_digits _ c h)
  · intro c hc
    exact Or.inr (natToChars_all_digits _ c hc)

lemma comma_not_mem_intToString (n : Int) : ',' ∉ intToString n := by
  intro h
  rcases intToString_chars _ h with h' | h' <;> simp [Char.isDigit] at h'

lemma newline_not_mem_intToString (n : Int) : '\n' ∉ intToString n := by
  intro h
  rcases intToString_chars _ h with h' | h' <;> simp [Char.isDigit] at h'

lemma intToString_no_ws {n : Int} : ∀ c ∈ intToString n, c.isWhitespace = false := by
  intro c hc
  rcases intToString_chars _ hc with h | h
  · subst h; rfl
  · exact not_ws_of_isDigit h

lemma trimChars_intToString (n : Int) : trimChars (intToString n) = intToString n :=
  trimChars_eq_self_of_no_ws intToString_no_ws

lemma exists_nonws_intToString (n : Int) :
    ∃ c ∈ intToString n, c.isWhitespace = false := by
  unfold intToString
  split
  · exact ⟨'-', by simp, rfl⟩
  · obtain ⟨c, cs, h⟩ := List.exists_cons_of_ne_nil (natToChars_ne_nil (Int.toNat n))
    refine ⟨c, by simp [h], ?_⟩
    exact not_ws_of_isDigit (natToChars_all_digits (Int.toNat n) c (by simp [h]))

lemma leadingDigits_all {l : Str} (h1 : l ≠ [])
    (h2 : ∀ c ∈ l, c.isDigit = true) : leadingDigits l = some (digitsVal l) := by
  unfold leadingDigits
  rw [takeWhile_eq_self_of_all h2]
  rw [if_neg (fun hemp => h1 (List.isEmpty_iff.mp hemp))]

lemma parseIntJS_all_digits {l : Str} (h1 : l ≠ [])
    (h2 : ∀ c ∈ l, c.isDigit = true) :
    parseIntJS l = some ((digitsVal l : Int)) := by
  obtain ⟨c, cs, rfl⟩ := List.exists_cons_of_ne_nil h1
  have hcd : c.isDigit = true := h2 c (by simp)
  have hws : List.dropWhile Char.isWhitespace (c :: cs) = c :: cs := by
    rw [List.dropWhile_cons, if_neg (by simp [not_ws_of_isDigit hcd])]
  unfold parseIntJS
  rw [hws, parseIntSigned, if_neg (ne_dash_of_isDigit hcd),
    if_neg (ne_plus_of_isDigit hcd), leadingDigits_all (by simp) h2]

lemma parseIntJS_intToString (n : Int) : parseIntJS (intToString n) = some n := by
  by_cases h : n < 0
  · have he : intToString n = '-' :: natToChars n.natAbs := by
      unfold intToString; rw [if_pos h]
    have hws : List.dropWhile Char.isWhitespace ('-' :: natToChars n.natAbs) =
        '-' :: natToChars n.natAbs := by
      rw [List.dropWhile_cons, if_neg (by simp [Char.isWhitespace])]
    rw [he]
    unfold parseIntJS
    rw [hws, parseIntSigned, if_pos rfl,
      leadingDigits_all (natToChars_ne_nil _) (natToChars_all_digits _),
      digitsVal_natToChars]
    have hval : -((n.natAbs : Nat) : Int) = n := by omega
    exact congrArg some hval
  · rw [show intToString n = natToChars n.toNat by unfold intToString; rw [if_neg h],
      parseIntJS_all_digits (natToChars_ne_nil _) (natToChars_all_digits _),
      digitsVal_natToChars, Int.toNat_of_nonneg (by omega)]

/-! ## Helper lemmas: sorting and folding -/

lemma insertLe_perm (le : VehicleRecord → VehicleRecord → Bool) (x : VehicleRecord)
    (l : List VehicleRecord) : (insertLe le x l).Perm (x :: l) := by
  induction l with
  | nil => exact List.Perm.refl _
  | cons y ys ih =>
    rw [insertLe]
    split
    · exact List.Perm.refl _
    · exact (ih.cons y).trans (List.Perm.swap x y ys)

lemma sortByLe_perm (le : VehicleRecord → VehicleRecord → Bool)
    (l : List VehicleRecord) : (sortByLe le l).Perm l := by
  induction l with
  | nil => exact List.Perm.refl _
  | cons a as ih => exact (insertLe_perm le a (sortByLe le as)).trans (ih.cons a)

lemma sortDatabase_perm (l : List VehicleRecord) : (sortDatabase l).Perm l :=
  sortByLe_perm _ l

lemma sortDatabase_length (l : List VehicleRecord) :
    (sortDatabase l).length = l.length :=
  (sortDatabase_perm l).length_eq

lemma foldl_push_filter {α : Type} (p : α → Bool) (l acc : List α) :
    l.foldl (fun a s => if p s then a else a ++ [s]) acc =
      acc ++ l.filter (fun s => !p s) := by
  induction l generalizing acc with
  | nil => simp
  | cons c cs ih =>
    rw [List.foldl_cons, List.filter_cons]
    by_cases hc : p c
    · rw [if_pos hc, ih, hc]
      simp
    · rw [if_neg hc, ih, eq_false_of_ne_true hc]
      simp

/-! ## Helper lemmas: digit-run extraction -/

lemma firstDigitRun_no_digit {s : Str} (h : ∀ c ∈ s, c.isDigit = false) :
    firstDigitRun s = none := by
  induction s with
  | nil => rfl
  | cons c cs ih =>
    rw [firstDigitRun, if_neg (by simp [h c (by simp)])]
    exact ih (fun x hx => h x (by simp [hx]))

lemma firstDigitRun_append_found {pre run post : Str}
    (hpre : ∀ c ∈ pre, c.isDigit = false) (hne : run ≠ [])
    (hrun : ∀ c ∈ run, c.isDigit = true)
    (hpost : ∀ c ∈ post.take 1, c.isDigit = false) :
    firstDigitRun (pre ++ run ++ post) = some run := by
  induction pre with
  | nil =>
    obtain ⟨h, t, rfl⟩ := List.exists_cons_of_ne_nil hne
    simp only [List.nil_append, List.cons_append, firstDigitRun]
    rw [if_pos (hrun h (by simp))]
    have ht : List.takeWhile Char.isDigit (t ++ post) = t :=
      takeWhile_append_first_false (fun c hc => hrun c (by simp [hc])) hpost
    exact congrArg (fun x => some (h :: x)) ht
  | cons c cs ih =>
    simp only [List.cons_append, firstDigitRun]
    rw [if_neg (by simp [hpre c (by simp)])]
    exact ih (fun x hx => hpre x (by simp [hx]))

/-! ## Claim theorems -/

/-- C4: `isDuplicate existing candidate` is true exactly when `existing`
contains a record whose Manufacturer, Model, Generation and Model_Code
match the candidate's case-insensitively and whose Start_Year equals the
candidate's exactly; End_Year is ignored, so the BMW 3 Series /
Generation 7 / G20 / 2018 records with End_Year "Present" and "2023" are
duplicates of each other (in both directions). -/
theorem c4_isDuplicate_spec :
    (∀ (existing : List VehicleRecord) (record : VehicleRecord),
      isDuplicate existing record = true ↔
        ∃ item ∈ existing,
          lowerStr item.Manufacturer = lowerStr record.Manufacturer ∧
          lowerStr item.Model = lowerStr record.Model ∧
          lowerStr item.Generation = lowerStr record.Generation ∧
          lowerStr item.Model_Code = lowerStr record.Model_Code ∧
          item.Start_Year = record.Start_Year) ∧
    isDuplicate [bmwPresent] bmw2023 = true ∧
    isDuplicate [bmw2023] bmwPresent = true := by
  refine ⟨?_, by decide, by decide⟩
  intro existing record
  simp only [isDuplicate, List.any_eq_true, Bool.and_eq_true, beq_iff_eq, and_assoc]

/-- C5: the identity key joins, in fixed order, the trimmed lowercased
values of all six fields — End_Year included — with the two-character
delimiter `##`; `getRecordKey` of an absent record is the empty string;
and the two BMW records that `isDuplicate` identifies get different
keys. -/
theorem c5_getRecordKey_spec :
    getRecordKey none = [] ∧
    (∀ v : VehicleRecord,
      getRecordKey (some v) =
        keyPart v.Manufacturer ++ "##".data ++ keyPart v.Model ++ "##".data ++
          keyPart v.Generation ++ "##".data ++ keyPart v.Model_Code ++ "##".data ++
          keyPart (syKeyStr v.Start_Year) ++ "##".data ++ keyPart v.End_Year) ∧
    getRecordKey (some bmwPresent) ≠ getRecordKey (some bmw2023) := by
  refine ⟨rfl, ?_, by decide⟩
  intro v
  simp only [getRecordKey, List.map_cons, List.map_nil, intercalate_cons₂,
    intercalate_single, List.append_assoc]

/-- C7 (amended): the auto-save effect persists the full dataset after
every mutation that leaves it non-empty; a mutation that empties the
dataset leaves storage untouched. -/
theorem c7_autosave_amended :
    ∀ (storage : Option (List VehicleRecord)) (db : List VehicleRecord),
      (0 < db.length → autoSaveEffect storage db = some db) ∧
      (db.length = 0 → autoSaveEffect storage db = storage) := by
  intro storage db
  constructor
  · intro h
    rw [autoSaveEffect, if_pos h]
  · intro h
    rw [autoSaveEffect, if_neg (by omega)]

/-- Witness for C7 (amended) at a concrete non-empty dataset. -/
theorem c7_autosave_amended_witness :
    0 < [toyotaRec].length ∧ autoSaveEffect none [toyotaRec] = some [toyotaRec] :=
  ⟨by decide, (c7_autosave_amended none [toyotaRec]).1 (by decide)⟩

/-- C7 counterexample: deleting the only record (a successful mutation
producing the empty dataset) leaves the stale previous snapshot in
storage, so the persisted snapshot does not equal the in-memory
dataset. -/
theorem c7_autosave_counterexample :
    deleteSelected [toyotaRec] [getRecordKey (some toyotaRec)] = [] ∧
    autoSaveEffect (some [toyotaRec])
      (deleteSelected [toyotaRec] [getRecordKey (some toyotaRec)]) =
      some [toyotaRec] ∧
    some [toyotaRec] ≠ some ([] : List VehicleRecord) := by decide

/-- C8: the page count is the ceiling of view length over the page size
with a minimum of 1 even for the empty view, and a current page beyond
the last page is clamped to the last page; a 120-record view yields 3
pages and page 5 clamps to page 3. -/
theorem c8_pagination_spec :
    ∀ (viewLen cur : Nat),
      1 ≤ totalPages viewLen ∧
      (viewLen = 0 → totalPages viewLen = 1) ∧
      (0 < viewLen →
        (totalPages viewLen - 1) * RECORDS_PER_PAGE < viewLen ∧
        viewLen ≤ totalPages viewLen * RECORDS_PER_PAGE) ∧
      (cur > totalPages viewLen →
        clampPageEffect cur (totalPages viewLen) = totalPages viewLen) ∧
      (cur ≤ totalPages viewLen → clampPageEffect cur (totalPages viewLen) = cur) ∧
      totalPages 120 = 3 ∧ clampPageEffect 5 (totalPages 120) = 3 := by
  intro viewLen cur
  unfold totalPages clampPageEffect RECORDS_PER_PAGE
  refine ⟨by omega, by omega, fun h => ⟨by omega, by omega⟩, ?_, ?_, by decide, by decide⟩
  · intro h
    rw [if_pos ⟨h, by omega⟩]
  · intro h
    rw [if_neg (by omega)]

/-- Witness for C8 at the 120-record view and requested page 5. -/
theorem c8_pagination_witness :
    (0 < 120 ∧ (totalPages 120 - 1) * RECORDS_PER_PAGE < 120 ∧
      120 ≤ totalPages 120 * RECORDS_PER_PAGE) ∧
    (5 > totalPages 120 ∧ clampPageEffect 5 (totalPages 120) = totalPages 120) :=
  ⟨⟨by decide, (c8_pagination_spec 120 5).2.2.1 (by decide)⟩,
   ⟨by decide, (c8_pagination_spec 120 5).2.2.2.1 (by decide)⟩⟩

/-- C9: `cleanGeneration` returns the first maximal run of decimal digits
when one exists and the input unchanged otherwise; in particular "Mk5"
becomes "5" and "Generation V" is unchanged. -/
theorem c9_cleanGeneration_spec :
    ∀ (s pre run post : Str),
      ((∀ c ∈ s, c.isDigit = false) → cleanGeneration s = s) ∧
      ((∀ c ∈ pre, c.isDigit = false) → run ≠ [] →
        (∀ c ∈ run, c.isDigit = true) → (∀ c ∈ post.take 1, c.isDigit = false) →
        cleanGeneration (pre ++ run ++ post) = run) ∧
      cleanGeneration "Mk5".data = "5".data ∧
      cleanGeneration "Generation V".data = "Generation V".data := by
  intro s pre run post
  refine ⟨?_, ?_, by decide, by decide⟩
  · intro h
    rw [cleanGeneration, firstDigitRun_no_digit h]
  · intro h1 h2 h3 h4
    rw [cleanGeneration, firstDigitRun_append_found h1 h2 h3 h4]

/-- Witness for C9 at the decomposition "Mk" ++ "5" ++ "". -/
theorem c9_cleanGeneration_witness :
    (∀ c ∈ "Mk".data, c.isDigit = false) ∧
    cleanGeneration ("Mk".data ++ "5".data ++ ([] : Str)) = "5".data :=
  ⟨by decide,
   (c9_cleanGeneration_spec [] "Mk".data "5".data []).2.1
     (by decide) (by decide) (by decide) (by decide)⟩

/-- C10: bulk delete keeps exactly the records whose derived key is not
in the selected key set, as a subsequence (original relative order), and
any record sharing a key with a selected record is removed together with
it. -/
theorem c10_deleteSelected_spec :
    ∀ (db rest : List VehicleRecord) (r : VehicleRecord) (keys : List Str),
      deleteSelected [] keys = [] ∧
      deleteSelected (r :: rest) keys =
        (if keys.contains (getRecordKey (some r)) = true then deleteSelected rest keys
         else r :: deleteSelected rest keys) ∧
      (deleteSelected db keys).Sublist db ∧
      (∀ x : VehicleRecord, x ∈ deleteSelected db keys ↔
        x ∈ db ∧ keys.contains (getRecordKey (some x)) = false) ∧
      (∀ r1 r2 : VehicleRecord, r1 ∈ db → r2 ∈ db →
        getRecordKey (some r1) = getRecordKey (some r2) →
        keys.contains (getRecordKey (some r1)) = true →
        r1 ∉ deleteSelected db keys ∧ r2 ∉ deleteSelected db keys) := by
  intro db rest r keys
  have hmem : ∀ x : VehicleRecord, x ∈ deleteSelected db keys ↔
      x ∈ db ∧ keys.contains (getRecordKey (some x)) = false := by
    intro x
    rw [deleteSelected, List.mem_filter, Bool.not_eq_true']
  refine ⟨rfl, ?_, List.filter_sublist db, hmem, ?_⟩
  · simp only [deleteSelected, List.filter_cons]
    cases hc : keys.contains (getRecordKey (some r)) with
    | false => simp
    | true => simp
  · intro r1 r2 h1 h2 hkey hsel
    constructor
    · intro hin
      rw [hmem r1] at hin
      rw [hin.2] at hsel
      cases hsel
    · intro hin
      rw [hmem r2] at hin
      rw [hkey, hin.2] at hsel
      cases hsel

/-- Witness for C10: two records differing only in Manufacturer casing
share a key; selecting that key deletes both. -/
theorem c10_deleteSelected_witness :
    getRecordKey (some toyotaRec) = getRecordKey (some toyotaRecUpper) ∧
    toyotaRec ∉ deleteSelected [toyotaRec, toyotaRecUpper]
      [getRecordKey (some toyotaRec)] ∧
    toyotaRecUpper ∉ deleteSelected [toyotaRec, toyotaRecUpper]
      [getRecordKey (some toyotaRec)] :=
  ⟨by decide,
   ((c10_deleteSelected_spec [toyotaRec, toyotaRecUpper] [] toyotaRec
      [getRecordKey (some toyotaRec)]).2.2.2.2 toyotaRec toyotaRecUpper
      (by decide) (by decide) (by decide) (by decide)).1,
   ((c10_deleteSelected_spec [toyotaRec, toyotaRecUpper] [] toyotaRec
      [getRecordKey (some toyotaRec)]).2.2.2.2 toyotaRec toyotaRecUpper
      (by decide) (by decide) (by decide) (by decide)).2⟩

/-- C1 (amended): the suggestion merge (`confirmAddition`) tests each
candidate against the pre-batch dataset and its result size is `|D|` plus
the number of candidates that are not duplicates of `D`; the CSV import
merge instead tests each candidate against the dataset as augmented by
the candidates accepted earlier in the same batch; both paths append the
accepted candidates and re-sort (a permutation of the appended list). -/
theorem c1_merge_amended :
    ∀ (db sugg cands : List VehicleRecord) (c : VehicleRecord),
      confirmNewRecords db sugg = sugg.filter (fun s => !isDuplicate db s) ∧
      confirmAdditionMerge db sugg =
        sortDatabase (db ++ sugg.filter (fun s => !isDuplicate db s)) ∧
      (confirmAdditionMerge db sugg).length =
        db.length + (sugg.filter (fun s => !isDuplicate db s)).length ∧
      (confirmAdditionMerge db sugg).Perm
        (db ++ sugg.filter (fun s => !isDuplicate db s)) ∧
      importAccum db [] = db ∧
      importAccum db (c :: cands) =
        (if isDuplicate db c = true then importAccum db cands
         else importAccum (db ++ [c]) cands) ∧
      (importMerge db cands).Perm (importAccum db cands) ∧
      (importMerge db cands).length = (importAccum db cands).length := by
  intro db sugg cands c
  have hnew : confirmNewRecords db sugg = sugg.filter (fun s => !isDuplicate db s) := by
    rw [confirmNewRecords, foldl_push_filter, List.nil_append]
  refine ⟨hnew, ?_, ?_, ?_, rfl, rfl, sortDatabase_perm _, sortDatabase_length _⟩
  · rw [confirmAdditionMerge, hnew]
  · rw [confirmAdditionMerge, hnew, sortDatabase_length, List.length_append]
  · rw [confirmAdditionMerge, hnew]
    exact sortDatabase_perm _

/-- C1 counterexample: importing the same new record twice through the
CSV merge accepts it only once (the second copy is cross-checked against
the first, accepted earlier in the same batch), so the resulting size is
1 and not `|D| + |C minus duplicates of D| = 2`. -/
theorem c1_merge_counterexample :
    (importMerge [] [toyotaRec, toyotaRec]).length = 1 ∧
    importAccum [] [toyotaRec, toyotaRec] = [toyotaRec] ∧
    ([] : List VehicleRecord).length +
      ([toyotaRec, toyotaRec].filter (fun s => !isDuplicate [] s)).length = 2 := by
  decide

/-! ## Helper lemmas: parseCSV error discipline -/

lemma processCell_not_format {values : List Str} {n : Nat} {st : RowState}
    {h : Str} {idx : Nat} :
    processCell values n st h idx ≠ Except.error ParseErr.formatError := by
  intro hcontra
  unfold processCell at hcontra
  repeat' split at hcontra
  all_goals simp_all

lemma processCells_not_format {values : List Str} {n : Nat} :
    ∀ (hs : List Str) (idx : Nat) (st : RowState),
      processCells values n hs idx st ≠ Except.error ParseErr.formatError := by
  intro hs
  induction hs with
  | nil => intro idx st h; simp [processCells] at h
  | cons h t ih =>
    intro idx st hcontra
    rw [processCells] at hcontra
    split at hcontra
    · rename_i e heq
      rw [Except.error.injEq] at hcontra
      subst hcontra
      exact processCell_not_format heq
    · exact ih (idx + 1) _ hcontra

lemma processRow_not_format {headers values : List Str} {n : Nat} :
    processRow headers values n ≠ Except.error ParseErr.formatError := by
  intro hcontra
  rw [processRow] at hcontra
  split at hcontra
  · rename_i e heq
    rw [Except.error.injEq] at hcontra
    subst hcontra
    exact processCells_not_format headers 0 {} heq
  · cases hcontra

lemma processRows_not_format {headers : List Str} :
    ∀ (rows : List Str) (n : Nat),
      processRows headers rows n ≠ Except.error ParseErr.formatError := by
  intro rows
  induction rows with
  | nil => intro n h; simp [processRows] at h
  | cons row rest ih =>
    intro n hcontra
    rw [processRows] at hcontra
    split at hcontra
    · exact ih (n + 1) hcontra
    · split at hcontra
      · rename_i e heq
        rw [Except.error.injEq] at hcontra
        subst hcontra
        exact processRow_not_format heq
      · split at hcontra
        · rename_i e heq
          rw [Except.error.injEq] at hcontra
          subst hcontra
          exact ih (n + 1) heq
        · cases hcontra

/-- C2 (amended): `parseCSV` fails with the FormatError exactly when the
input has at least 2 non-blank lines and the header row's fields, as a
set, do not contain all six expected names (extra and reordered columns
are tolerated via the name lookup in `validHeader`); with fewer than 2
non-blank lines it returns an empty record list without error; and on
any decode failure the dataset is left unchanged. -/
theorem c2_parseCSV_amended :
    ∀ (content : Str) (db : List VehicleRecord),
      (parseCSV content = Except.error ParseErr.formatError ↔
        2 ≤ (csvLines content).length ∧ validHeader (csvHeaders content) = false) ∧
      ((csvLines content).length < 2 → parseCSV content = Except.ok []) ∧
      (∀ e, parseCSV content = Except.error e → importCSV db content = db) := by
  intro content db
  have himp : ∀ e, parseCSV content = Except.error e → importCSV db content = db := by
    intro e he
    rw [importCSV, he]
  have hP : parseCSV content = parseCSVLines (csvLines content) := rfl
  match hl : csvLines content with
  | [] =>
    have hp : parseCSV content = Except.ok [] := by
      rw [hP, hl, parseCSVLines]
    refine ⟨?_, fun _ => hp, himp⟩
    rw [hp]
    constructor
    · intro h; cases h
    · intro ⟨h, _⟩; simp at h
  | [l0] =>
    have hp : parseCSV content = Except.ok [] := by
      rw [hP, hl, parseCSVLines]
    refine ⟨?_, fun _ => hp, himp⟩
    rw [hp]
    constructor
    · intro h; cases h
    · intro ⟨h, _⟩; simp at h
  | l0 :: l1 :: rest =>
    have hh : csvHeaders content = (splitOnChar ',' l0).map trimChars := by
      rw [csvHeaders, hl]
    refine ⟨?_, by intro h; simp at h; omega, himp⟩
    by_cases hv : validHeader ((splitOnChar ',' l0).map trimChars) = true
    · have hp : parseCSV content =
          processRows ((splitOnChar ',' l0).map trimChars) (l1 :: rest) 1 := by
        rw [hP, hl, parseCSVLines, if_pos hv]
        simp
      rw [hp, hh]
      constructor
      · intro h
        exact absurd h (processRows_not_format _ _)
      · intro ⟨_, h2⟩
        rw [hv] at h2
        cases h2
    · have hp : parseCSV content = Except.error ParseErr.formatError := by
        rw [hP, hl, parseCSVLines, if_neg hv]
        simp
      rw [hp, hh]
      simp [eq_false_of_ne_true hv]

/-- C2 counterexample: an input with fewer than 2 non-blank lines — for
which the claim demands a FormatError — parses to an empty record list
with no error at all. -/
theorem c2_parseCSV_counterexample :
    parseCSV badHeaderOneLine = Except.ok [] ∧
    (csvLines badHeaderOneLine).length = 1 ∧
    validHeader (csvHeaders badHeaderOneLine) = false := by decide

/-- Witness for C2 (amended): the short-input branch returns `ok []` and
the two-line bad-header input fails with the format error, leaving the
dataset unchanged. -/
theorem c2_parseCSV_amended_witness :
    parseCSV badHeaderOneLine = Except.ok [] ∧
    parseCSV badHeaderTwoLines = Except.error ParseErr.formatError ∧
    importCSV [toyotaRec] badHeaderTwoLines = [toyotaRec] :=
  ⟨(c2_parseCSV_amended badHeaderOneLine []).2.1 (by decide),
   (c2_parseCSV_amended badHeaderTwoLines []).1.mpr ⟨by decide, by decide⟩,
   (c2_parseCSV_amended badHeaderTwoLines [toyotaRec]).2.2 ParseErr.formatError
     ((c2_parseCSV_amended badHeaderTwoLines []).1.mpr ⟨by decide, by decide⟩)⟩

/-! ## Helper lemmas: locating a failing Start_Year cell -/

lemma cellAt_of_lt {values : List Str} {i : Nat} (h : i < values.length) :
    ∃ v, cellAt values i = JsVal.str v := by
  unfold cellAt
  rw [List.getElem?_eq_getElem h]
  exact ⟨values[i], rfl⟩

lemma processCell_ok_of_ne_sy {values : List Str} {n idx : Nat} {st : RowState}
    {h : Str} (hne : ¬ h = "Start_Year".data)
    (hdef : h = "Generation".data → idx < values.length) :
    ∃ st', processCell values n st h idx = Except.ok st' := by
  unfold processCell
  rw [if_neg hne]
  by_cases hg : h = "Generation".data
  · obtain ⟨v, hv⟩ := cellAt_of_lt (hdef hg)
    rw [if_pos hg, hv]
    exact ⟨_, rfl⟩
  · rw [if_neg hg]
    repeat' split
    all_goals exact ⟨_, rfl⟩

lemma processCells_sy_fail {values : List Str} {n : Nat} :
    ∀ (hs : List Str) (k idx : Nat) (st : RowState),
      hs[k]? = some "Start_Year".data →
      (∀ p, p < k → ¬ hs[p]? = some "Start_Year".data) →
      parseIntJS (jsValToStr (cellAt values (idx + k))) = none →
      (∀ p, p < k → hs[p]? = some "Generation".data → idx + p < values.length) →
      processCells values n hs idx st =
        Except.error (ParseErr.rowParseError (n + 1)
          (jsValToStr (cellAt values (idx + k)))) := by
  intro hs
  induction hs with
  | nil => intro k idx st hk; simp at hk
  | cons h t ih =>
    intro k idx st hk hkfirst hfail hgen
    cases k with
    | zero =>
      rw [List.getElem?_cons_zero, Option.some.injEq] at hk
      subst hk
      rw [Nat.add_zero] at hfail
      have hpc : processCell values n st "Start_Year".data idx =
          Except.error (ParseErr.rowParseError (n + 1)
            (jsValToStr (cellAt values idx))) := by
        unfold processCell
        rw [if_pos rfl, hfail]
      rw [processCells, hpc]
      rfl
    | succ k' =>
      rw [List.getElem?_cons_succ] at hk
      have hne : ¬ h = "Start_Year".data := by
        have h0 := hkfirst 0 (by omega)
        rwa [List.getElem?_cons_zero, Option.some.injEq] at h0
      have hdef : h = "Generation".data → idx < values.length := by
        intro hg
        have h0 := hgen 0 (by omega) (by rw [List.getElem?_cons_zero, hg])
        simpa using h0
      obtain ⟨st', hst'⟩ := processCell_ok_of_ne_sy hne hdef
      have harith : idx + (k' + 1) = (idx + 1) + k' := by omega
      rw [harith] at hfail ⊢
      rw [processCells, hst']
      apply ih k' (idx + 1) st' hk
      · intro p hp
        have := hkfirst (p + 1) (by omega)
        rwa [List.getElem?_cons_succ] at this
      · exact hfail
      · intro p hp hgp
        have := hgen (p + 1) (by omega) (by rwa [List.getElem?_cons_succ])
        omega

lemma processRow_sy_fail {hs values : List Str} {n k : Nat}
    (hk : hs[k]? = some "Start_Year".data)
    (hkfirst : ∀ p, p < k → ¬ hs[p]? = some "Start_Year".data)
    (hfail : parseIntJS (jsValToStr (cellAt values k)) = none)
    (hgen : ∀ p, p < k → hs[p]? = some "Generation".data → p < values.length) :
    processRow hs values n =
      Except.error (ParseErr.rowParseError (n + 1)
        (jsValToStr (cellAt values k))) := by
  have hcells := @processCells_sy_fail values n hs k 0
    ⟨none, none, none, none, none, none⟩ hk hkfirst
    (by rwa [Nat.zero_add]) (by intro p hp hgp; rw [Nat.zero_add]; exact hgen p hp hgp)
  rw [Nat.zero_add] at hcells
  rw [processRow, hcells]

lemma processRows_error_at {hs : List Str} {e : ParseErr} :
    ∀ (rows : List Str) (n j : Nat) (row : Str),
      rows[j]? = some row →
      (∀ j' rowj, j' < j → rows[j']? = some rowj →
        ¬(rowVals rowj).length < expectedHeaders.length →
        ∃ rec, processRow hs (rowVals rowj) (n + j') = Except.ok rec) →
      ¬(rowVals row).length < expectedHeaders.length →
      processRow hs (rowVals row) (n + j) = Except.error e →
      processRows hs rows n = Except.error e := by
  intro rows
  induction rows with
  | nil => intro n j row hj; simp at hj
  | cons row0 rest ih =>
    intro n j row hj hprior hkept herr
    cases j with
    | zero =>
      rw [List.getElem?_cons_zero, Option.some.injEq] at hj
      subst hj
      rw [Nat.add_zero] at herr
      rw [processRows, if_neg hkept, herr]
    | succ j' =>
      rw [List.getElem?_cons_succ] at hj
      have hrest : processRows hs rest (n + 1) = Except.error e := by
        apply ih (n + 1) j' row hj
        · intro j'' rowj hj'' hjrow hjkept
          obtain ⟨rec, hrec⟩ := hprior (j'' + 1) rowj (by omega)
            (by rwa [List.getElem?_cons_succ]) hjkept
          exact ⟨rec, by rwa [show n + (j'' + 1) = n + 1 + j'' by omega] at hrec⟩
        · exact hkept
        · rwa [show n + (j' + 1) = n + 1 + j' by omega] at herr
      by_cases hskip : (rowVals row0).length < expectedHeaders.length
      · rw [processRows, if_pos hskip, hrest]
      · obtain ⟨rec0, hrec0⟩ := hprior 0 row0 (by omega)
          (by rw [List.getElem?_cons_zero]) hskip
        rw [Nat.add_zero] at hrec0
        rw [processRows, if_neg hskip, hrec0, hrest]

/-- C6 (amended): for a valid header, when the first row at which
processing fails is a kept row whose Start_Year cell does not parse as an
integer (every earlier Generation column of that row being present), the
decode fails with the row error carrying the 1-based non-blank line
number and the offending cell text, and the import leaves the dataset
unchanged.  (A kept row whose Generation column lies beyond the row's
cells would instead raise a TypeError — see the counterexample.) -/
theorem c6_rowParse_amended :
    ∀ (db : List VehicleRecord) (content : Str) (i k : Nat) (row : Str),
      validHeader (csvHeaders content) = true →
      1 ≤ i →
      (csvLines content)[i]? = some row →
      (∀ j rowj, 1 ≤ j → j < i → (csvLines content)[j]? = some rowj →
        ¬(rowVals rowj).length < expectedHeaders.length →
        ∃ rec, processRow (csvHeaders content) (rowVals rowj) j = Except.ok rec) →
      ¬(rowVals row).length < expectedHeaders.length →
      (csvHeaders content)[k]? = some "Start_Year".data →
      (∀ p, p < k → ¬(csvHeaders content)[p]? = some "Start_Year".data) →
      parseIntJS (jsValToStr (cellAt (rowVals row) k)) = none →
      (∀ p, p < k → (csvHeaders content)[p]? = some "Generation".data →
        p < (rowVals row).length) →
      parseCSV content =
        Except.error (ParseErr.rowParseError (i + 1)
          (jsValToStr (cellAt (rowVals row) k))) ∧
      importCSV db content = db := by
  intro db content i k row hvalid hi hrow hprior hkept hk hkfirst hfail hgen
  have hP : parseCSV content = parseCSVLines (csvLines content) := rfl
  match hl : csvLines content with
  | [] =>
    rw [hl] at hrow
    simp at hrow
  | l0 :: restL =>
    rw [hl] at hrow hprior
    have hh : csvHeaders content = (splitOnChar ',' l0).map trimChars := by
      rw [csvHeaders, hl]
    rw [hh] at hvalid hk hkfirst hgen
    have hieq : i = (i - 1) + 1 := by omega
    rw [hieq, List.getElem?_cons_succ] at hrow
    cases restL with
    | nil => simp at hrow
    | cons l1 rest2 =>
      have hparse : parseCSV content =
          processRows ((splitOnChar ',' l0).map trimChars) (l1 :: rest2) 1 := by
        rw [hP, hl, parseCSVLines, if_pos hvalid]
        simp
      have hrowerr : processRow ((splitOnChar ',' l0).map trimChars)
          (rowVals row) (1 + (i - 1)) =
          Except.error (ParseErr.rowParseError (i + 1)
            (jsValToStr (cellAt (rowVals row) k))) := by
        have h1i : 1 + (i - 1) = i := by omega
        rw [h1i]
        exact @processRow_sy_fail ((splitOnChar ',' l0).map trimChars)
          (rowVals row) i k hk hkfirst hfail hgen
      have hperr : parseCSV content =
          Except.error (ParseErr.rowParseError (i + 1)
            (jsValToStr (cellAt (rowVals row) k))) := by
        rw [hparse]
        apply processRows_error_at (l1 :: rest2) 1 (i - 1) row hrow
        · intro j' rowj hj' hjrow hjkept
          obtain ⟨rec, hrec⟩ := hprior (j' + 1) rowj (by omega) (by omega)
            (by rwa [List.getElem?_cons_succ]) hjkept
          rw [hh] at hrec
          exact ⟨rec, by rwa [show 1 + j' = j' + 1 by omega]⟩
        · exact hkept
        · exact hrowerr
      exact ⟨hperr, by rw [importCSV, hperr]⟩

/-- Witness for C6 (amended): the canonical bad-year row fails with the
row error naming line 2 and text "abc", and the import leaves the
dataset unchanged. -/
theorem c6_rowParse_amended_witness :
    parseCSV goodHeaderBadYear =
      Except.error (ParseErr.rowParseError 2 "abc".data) ∧
    importCSV [toyotaRec] goodHeaderBadYear = [toyotaRec] := by
  have h := c6_rowParse_amended [toyotaRec] goodHeaderBadYear 1 4
    "Toyota,Corolla,Mk5,E210,abc,Present".data
    (by decide) (by decide) (by decide)
    (by intro j rowj h1 h2 h3 h4; omega)
    (by decide) (by decide)
    (by intro p hp; interval_cases p <;> decide)
    (by decide)
    (by intro p hp; interval_cases p <;> decide)
  refine ⟨?_, h.2⟩
  rw [h.1]
  decide

/-- C6 counterexample: `extraColsContent` has a valid header and a data
row whose Start_Year cell fails integer parsing, yet the decode fails
with a TypeError (from the first kept row, whose Generation column lies
beyond its six cells), not with a RowParseError naming a line and the
offending text. -/
theorem c6_rowParse_counterexample :
    validHeader (csvHeaders extraColsContent) = true ∧
    (csvLines extraColsContent)[2]? = some extraColsRow2 ∧
    ¬(rowVals extraColsRow2).length < expectedHeaders.length ∧
    (csvHeaders extraColsContent)[3]? = some "Start_Year".data ∧
    parseIntJS (jsValToStr (cellAt (rowVals extraColsRow2) 3)) = none ∧
    parseCSV extraColsContent = Except.error ParseErr.typeError := by
  decide

/-! ## Round-trip: lemmas -/

lemma recordField_expected (r : VehicleRecord) :
    expectedHeaders.map (recordField r) =
      [r.Manufacturer, r.Model, r.Generation, r.Model_Code,
       intToString r.Start_Year, r.End_Year] := rfl

lemma rowVals_of_record {r : VehicleRecord} (hok : recordOk r) :
    rowVals (List.intercalate [','] (expectedHeaders.map (recordField r))) =
      [r.Manufacturer, r.Model, r.Generation, r.Model_Code,
       intToString r.Start_Year, r.End_Year] := by
  obtain ⟨⟨hm1, _, hm3⟩, ⟨ho1, _, ho3⟩, ⟨hg1, _, hg3⟩, ⟨hc1, _, hc3⟩, ⟨he1, _, he3⟩, _⟩ := hok
  rw [recordField_expected, rowVals]
  rw [splitOnChar_intercalate (by simp) ?hmem]
  case hmem =>
    intro p hp
    simp only [List.mem_cons, List.not_mem_nil, or_false] at hp
    rcases hp with rfl | rfl | rfl | rfl | rfl | rfl
    · exact hm1
    · exact ho1
    · exact hg1
    · exact hc1
    · exact comma_not_mem_intToString _
    · exact he1
  simp only [List.map_cons, List.map_nil]
  rw [hm3, ho3, hg3, hc3, he3, trimChars_intToString]

lemma processRow_six (m mo g mc sy ey : Str) (n : Nat) (y : Int)
    (hy : parseIntJS sy = some y) :
    processRow expectedHeaders [m, mo, g, mc, sy, ey] n =
      Except.ok ⟨.str m, .str mo, cleanGeneration g, .str mc, y, .str ey⟩ := by
  have hsteps : processRow expectedHeaders [m, mo, g, mc, sy, ey] n =
      (match (match (match parseIntJS sy with
                     | none => Except.error (ParseErr.rowParseError (n + 1) sy)
                     | some y' =>
                       Except.ok (⟨some (.str m), some (.str mo),
                         some (cleanGeneration g), some (.str mc), some y',
                         none⟩ : RowState)) with
              | .error e => Except.error e
              | .ok st5 =>
                processCells [m, mo, g, mc, sy, ey] n ["End_Year".data] 5 st5) with
       | .error e => Except.error e
       | .ok st => Except.ok (finishRow st)) := by
    with_unfolding_all rfl
  rw [hsteps, hy]
  rfl

lemma newline_not_mem_rowline {r : VehicleRecord} (hok : recordOk r) :
    '\n' ∉ List.intercalate [','] (expectedHeaders.map (recordField r)) := by
  obtain ⟨⟨_, hm2, _⟩, ⟨_, ho2, _⟩, ⟨_, hg2, _⟩, ⟨_, hc2, _⟩, ⟨_, he2, _⟩, _⟩ := hok
  rw [recordField_expected]
  apply not_mem_intercalate (by simp)
  intro p hp
  simp only [List.mem_cons, List.not_mem_nil, or_false] at hp
  rcases hp with rfl | rfl | rfl | rfl | rfl | rfl
  · exact hm2
  · exact ho2
  · exact hg2
  · exact hc2
  · exact newline_not_mem_intToString _
  · exact he2

lemma rowline_not_blank (r : VehicleRecord) :
    ¬(trimChars (List.intercalate [','] (expectedHeaders.map (recordField r)))).isEmpty = true := by
  obtain ⟨c, hc, hcw⟩ := exists_nonws_intToString r.Start_Year
  apply trimChars_ne_nil ?hmem hcw
  case hmem =>
    rw [recordField_expected]
    exact mem_intercalate_of_mem_part hc (by simp)

lemma csvLines_convert (D : List VehicleRecord) (h : ∀ r ∈ D, recordOk r) :
    csvLines (convertToCSV D) =
      List.intercalate [','] expectedHeaders ::
        D.map (fun r => List.intercalate [','] (expectedHeaders.map (recordField r))) := by
  rw [convertToCSV, csvLines]
  rw [splitOnChar_intercalate (by simp) ?hnl]
  case hnl =>
    intro p hp
    rcases List.mem_cons.mp hp with rfl | hp
    · decide
    · rw [List.mem_map] at hp
      obtain ⟨r, hr, rfl⟩ := hp
      exact newline_not_mem_rowline (h r hr)
  refine List.filter_eq_self.mpr ?_
  intro l hl
  rcases List.mem_cons.mp hl with rfl | hl
  · decide
  · rw [List.mem_map] at hl
    obtain ⟨r, _, rfl⟩ := hl
    show (!(trimChars _).isEmpty) = true
    rw [eq_false_of_ne_true (rowline_not_blank r)]
    rfl

lemma processRows_all (D : List VehicleRecord) :
    ∀ (n : Nat), (∀ r ∈ D, recordOk r) →
      processRows expectedHeaders
        (D.map (fun r => List.intercalate [','] (expectedHeaders.map (recordField r)))) n =
      Except.ok (D.map embedRec) := by
  induction D with
  | nil => intro n _; rfl
  | cons r D' ih =>
    intro n h
    have hokr : recordOk r := h r (by simp)
    have hvals := rowVals_of_record hokr
    rw [List.map_cons, processRows, hvals]
    rw [if_neg (by simp [expectedHeaders])]
    rw [processRow_six _ _ _ _ _ _ n r.Start_Year (parseIntJS_intToString r.Start_Year)]
    rw [ih (n + 1) (fun x hx => h x (by simp [hx]))]
    rw [List.map_cons]
    rw [hokr.2.2.2.2.2]
    rfl

/-- C3 (amended): for every dataset that is sorted, has pairwise distinct
identity keys, and whose text fields are comma-free, newline-free and
trim-stable with Generation already normalized, decoding the encoding
reproduces exactly the dataset's records, field for field. -/
theorem c3_roundtrip_amended :
    ∀ D : List VehicleRecord,
      sortDatabase D = D →
      (D.map (fun r => getRecordKey (some r))).Nodup →
      (∀ r ∈ D, recordOk r) →
      parseCSV (convertToCSV D) = Except.ok (D.map embedRec) := by
  intro D _ _ hok
  cases D with
  | nil => decide
  | cons r D' =>
    have hP : parseCSV (convertToCSV (r :: D')) =
        parseCSVLines (csvLines (convertToCSV (r :: D'))) := rfl
    rw [hP, csvLines_convert (r :: D') hok, List.map_cons, parseCSVLines]
    · have hH : (splitOnChar ','
          (List.intercalate [','] expectedHeaders)).map trimChars =
          expectedHeaders := by decide
      rw [hH, if_pos (by decide)]
      have := processRows_all (r :: D') 1 hok
      rw [List.map_cons] at this
      exact this
    · simp

/-- Witness for C3 (amended) at a concrete conforming one-record
dataset. -/
theorem c3_roundtrip_amended_witness :
    (sortDatabase [toyotaRec] = [toyotaRec] ∧
      ([toyotaRec].map (fun r => getRecordKey (some r))).Nodup ∧
      (∀ r ∈ [toyotaRec], recordOk r)) ∧
    parseCSV (convertToCSV [toyotaRec]) = Except.ok ([toyotaRec].map embedRec) :=
  ⟨⟨by decide, by decide, by decide⟩,
   c3_roundtrip_amended [toyotaRec] (by decide) (by decide) (by decide)⟩

/-- C3 counterexample: a one-record dataset that is sorted, deduplicated,
comma-free and Generation-normalized — exactly the claim's conformance —
but whose Manufacturer carries a leading space; decoding the encoding
trims it, so the round trip does not reproduce the record. -/
theorem c3_roundtrip_counterexample :
    sortDatabase [bmwSpaced] = [bmwSpaced] ∧
    ([bmwSpaced].map (fun r => getRecordKey (some r))).Nodup ∧
    (',' ∉ bmwSpaced.Manufacturer ∧ ',' ∉ bmwSpaced.Model ∧
      ',' ∉ bmwSpaced.Generation ∧ ',' ∉ bmwSpaced.Model_Code ∧
      ',' ∉ bmwSpaced.End_Year) ∧
    cleanGeneration bmwSpaced.Generation = bmwSpaced.Generation ∧
    parseCSV (convertToCSV [bmwSpaced]) = Except.ok [embedRec bmw2023] ∧
    parseCSV (convertToCSV [bmwSpaced]) ≠ Except.ok ([bmwSpaced].map embedRec) := by
  decide

end AutoData
